import Mathlib

/-!
Verification of the journal/diary retrieval core of the repository
(`src/view-functions/getJournalEntries.ts`,
`src/view-functions/getDiaryObjectAddressFromGraphQL.ts` and the
`getDiaryEntries` code shipped alongside it).

The TypeScript functions operate on loosely typed JSON-derived values.  We
embed those values as the inductive type `JsValue` (null, undefined, boolean,
number, string, array, object) and translate each function line by line.

Modelling conventions, stated once here:
* Numbers are embedded as `Int` (the keys handled by this code are u64 unix
  timestamps, delivered as decimal strings or integral numbers); `NaN` is
  tracked explicitly by the type `JsNum` where it can arise (`parseInt`,
  `Number`, subtraction in the sort comparator).
* Property access models own-properties of JSON data; inherited prototype
  members (never relevant to these decoders) are not modelled, and access on
  a non-object yields `undefined` as in JS optional chaining.
* Code that can throw (a `for...of` loop over a non-iterable value, an async
  call that rejects, the `throw` statement) is embedded in `Except JsError`;
  code whose every loop is guarded by `Array.isArray` is embedded as a total
  function, which is exactly the difference between the diary and the journal
  tree decoders in the source.
-/

/-- A JSON-ish runtime value as handled by the TypeScript source. -/
inductive JsValue where
  | null
  | undefined
  | bool (b : Bool)
  | num (n : Int)
  | str (s : String)
  | arr (elems : List JsValue)
  | obj (fields : List (String × JsValue))

/-- JS truthiness: `null`, `undefined`, `false`, `0`, `""` are falsy;
arrays and objects are always truthy. -/
def truthy : JsValue → Bool
  | .null => false
  | .undefined => false
  | .bool b => b
  | .num n => n != 0
  | .str s => s != ""
  | .arr _ => true
  | .obj _ => true

/-- `typeof v === "object"` — true for objects, arrays and `null`. -/
def isObjectType : JsValue → Bool
  | .null => true
  | .arr _ => true
  | .obj _ => true
  | _ => false

def isString : JsValue → Bool
  | .str _ => true
  | _ => false

def isArray : JsValue → Bool
  | .arr _ => true
  | _ => false

def isNull : JsValue → Bool
  | .null => true
  | _ => false

/-- `v === true` (strict equality against the boolean `true`). -/
def isBoolTrue : JsValue → Bool
  | .bool true => true
  | _ => false

/-- `v === "lit"` (strict equality against a string literal). -/
def jsStrEq (v : JsValue) (lit : String) : Bool :=
  match v with
  | .str t => t = lit
  | _ => false

def lookupField : List (String × JsValue) → String → Option JsValue
  | [], _ => none
  | (k, v) :: rest, key => if k = key then some v else lookupField rest key

/-- Property read `v.key` (and `v?.key`): the field value on an object,
`undefined` otherwise. -/
def JsValue.get (v : JsValue) (key : String) : JsValue :=
  match v with
  | .obj fields => (lookupField fields key).getD .undefined
  | _ => .undefined

/-- `"key" in v` — own-property presence test (only meaningful on objects). -/
def hasField (v : JsValue) (key : String) : Bool :=
  match v with
  | .obj fields => (lookupField fields key).isSome
  | _ => false

/-- Index read `v[i]` on an array; `undefined` otherwise. -/
def jsIndex (v : JsValue) (i : Nat) : JsValue :=
  match v with
  | .arr xs => (xs.get? i).getD .undefined
  | _ => .undefined

def arrayLength : JsValue → Nat
  | .arr xs => xs.length
  | _ => 0

/-- A JS number that is either an integer or `NaN`. -/
inductive JsNum where
  | int (n : Int)
  | nan
deriving DecidableEq

/-- `b - a` on JS numbers: any `NaN` operand gives `NaN`. -/
def jsNumSub : JsNum → JsNum → JsNum
  | .int a, .int b => .int (a - b)
  | _, _ => .nan

/-- A JS exception, as observed by the `catch` blocks in the source:
an optional numeric `status` and a `message`. -/
structure JsError where
  status : Option Int
  message : String
deriving DecidableEq

/-- `String(x)` as used on the elements of a `vec` wrapper.  Nested
array/object stringification is shallow here (never exercised by any theorem
below; the wrappers produced by the indexer carry address strings). -/
def jsToString : JsValue → String
  | .str s => s
  | .num n => toString n
  | .bool b => if b then "true" else "false"
  | .null => "null"
  | .undefined => "undefined"
  | .arr _ => ""
  | .obj _ => "[object Object]"

def isWhitespaceChar (c : Char) : Bool :=
  c = ' ' || c = '\t' || c = '\n' || c = '\r'

/-- Value of a list of decimal digit characters. -/
def digitsVal (l : List Char) : Nat :=
  l.foldl (fun a c => 10 * a + (c.toNat - '0'.toNat)) 0

/-- Strip an optional leading sign, returning the sign factor and the rest. -/
def signSplit : List Char → Int × List Char
  | '-' :: rest => (-1, rest)
  | '+' :: rest => (1, rest)
  | l => (1, l)

/-- `parseInt(s, 10)`: skip leading whitespace, read an optional sign, then
the longest prefix of decimal digits; `NaN` when no digit is found. -/
def jsParseInt10 (s : String) : JsNum :=
  let sr := signSplit (s.toList.dropWhile isWhitespaceChar)
  let ds := sr.2.takeWhile Char.isDigit
  if ds.isEmpty then .nan else .int (sr.1 * (digitsVal ds : Int))

/-- `Number(v)` for the non-string values this code can feed it (in
`coerceKey` the string case is diverted to `parseInt` by the `typeof` test,
so the string/array/object arms are never reached by the embedded code and
are modelled as `NaN`). -/
def jsToNumber : JsValue → JsNum
  | .num n => .int n
  | .bool b => .int (if b then 1 else 0)
  | .null => .int 0
  | .undefined => .nan
  | .str _ => .nan
  | .arr _ => .nan
  | .obj _ => .nan

/-- The key coercion shared by both decoders:
`typeof key === "string" ? parseInt(key, 10) : Number(key)`. -/
def coerceKey (v : JsValue) : JsNum :=
  match v with
  | .str s => jsParseInt10 s
  | _ => jsToNumber v

/-- `for (const x of v)`: arrays iterate their elements, strings their
characters; any other value makes the loop throw a `TypeError`. -/
def jsIterate : JsValue → Except JsError (List JsValue)
  | .arr xs => .ok xs
  | .str s => .ok (s.toList.map fun c => .str c.toString)
  | _ => .error ⟨none, "is not iterable"⟩

@[simp] theorem truthy_arr (xs : List JsValue) : truthy (.arr xs) = true := rfl

namespace Journal

/-!
### `src/view-functions/getJournalEntries.ts`
-/

/--
`extractMessageFromEntry` (journal variant, lines 14–19):
```
if (entry?.__variant__ === "Leaf" && entry?.value?.message) {
  return entry.value.message;
}
return null;
```
`some`/`none` stand for the returned message / `null`. -/
def extractMessageFromEntry (entry : JsValue) : Option JsValue :=
  if jsStrEq (entry.get "__variant__") "Leaf" && truthy ((entry.get "value").get "message") then
    some ((entry.get "value").get "message")
  else none

/-- Body of the leaf-node loop of `extractEntriesFromNode`:
`if (entry?.key && entry?.value) { push({key: coerced, value: entry.value}) }`. -/
def leafEntryItem (entry : JsValue) : Option (JsNum × JsValue) :=
  if truthy (entry.get "key") && truthy (entry.get "value") then
    some (coerceKey (entry.get "key"), entry.get "value")
  else none

/-- The internal-node loop: iterate the already-materialised children in
order; for a child with a truthy `value`, run the recursive decode `rec` on
it and append the results; a thrown exception aborts the loop. -/
def internalChildren (rec : JsValue → Except JsError (List (JsNum × JsValue))) :
    List JsValue → Except JsError (List (JsNum × JsValue))
  | [] => .ok []
  | c :: cs =>
    if truthy (c.get "value") then
      match rec (c.get "value") with
      | .error e => .error e
      | .ok sub =>
        match internalChildren rec cs with
        | .error e => .error e
        | .ok rest => .ok (sub ++ rest)
    else internalChildren rec cs

/-- Recursion core of `extractEntriesFromNode`, structural in the fuel
`(maxDepth + 1 - depth).toNat`; fuel `0` is exactly the guard `depth >
maxDepth`.  Mirrors lines 31–69 of `getJournalEntries.ts`:
the guard (`depth > maxDepth || !node || typeof node !== "object"`), the
leaf branch (`node.is_leaf === true && node.children?.entries`, iterating
`node.children.entries` — note: no `Array.isArray` guard, so a truthy
non-iterable `entries` makes the `for...of` throw), and the internal branch
(`node.children?.entries`, recursing into each child's truthy `value` at
`depth + 1`). -/
def extractGo : Nat → JsValue → Except JsError (List (JsNum × JsValue))
  | 0, _ => .ok []
  | fuel + 1, node =>
    if !(truthy node) || !(isObjectType node) then .ok []
    else if isBoolTrue (node.get "is_leaf") && truthy ((node.get "children").get "entries") then
      match jsIterate ((node.get "children").get "entries") with
      | .error e => .error e
      | .ok items => .ok (items.filterMap leafEntryItem)
    else if truthy ((node.get "children").get "entries") then
      match jsIterate ((node.get "children").get "entries") with
      | .error e => .error e
      | .ok items => internalChildren (fun v => extractGo fuel v) items
    else .ok []

/-- `extractEntriesFromNode(node, depth, maxDepth)` for arbitrary integer
`depth`/`maxDepth` (the source defaults are `0` and `20`). -/
def extractEntriesFromNode (node : JsValue) (depth maxDepth : Int) :
    Except JsError (List (JsNum × JsValue)) :=
  extractGo (maxDepth + 1 - depth).toNat node

/-- The guard of `extractEntriesFromNode`: excessive depth, a falsy node or a
non-object node short-circuits to an empty (and exception-free) result. -/
theorem extractEntriesFromNode_guard (node : JsValue) (depth maxDepth : Int)
    (h : depth > maxDepth ∨ truthy node = false ∨ isObjectType node = false) :
    extractEntriesFromNode node depth maxDepth = .ok [] := by
  unfold extractEntriesFromNode
  rcases h with h | h | h
  · have hz : (maxDepth + 1 - depth).toNat = 0 := by omega
    rw [hz]; rfl
  · cases hf : (maxDepth + 1 - depth).toNat with
    | zero => rfl
    | succ fuel => simp [extractGo, h]
  · cases hf : (maxDepth + 1 - depth).toNat with
    | zero => rfl
    | succ fuel => simp [extractGo, h]

/-- Unfolding of the leaf branch at legal depth: when the node is truthy, an
object, has `is_leaf === true` and its `children.entries` is an actual array,
the decode is the in-order filter of the entries. -/
theorem extractEntriesFromNode_leaf (node : JsValue) (depth maxDepth : Int)
    (hd : depth ≤ maxDepth)
    (ht : truthy node = true) (ho : isObjectType node = true)
    (hl : isBoolTrue (node.get "is_leaf") = true)
    (he : (node.get "children").get "entries" = .arr xs) :
    extractEntriesFromNode node depth maxDepth = .ok (xs.filterMap leafEntryItem) := by
  unfold extractEntriesFromNode
  have hf : (maxDepth + 1 - depth).toNat = (maxDepth - depth).toNat + 1 := by omega
  rw [hf]
  simp [extractGo, ht, ho, hl, he, jsIterate]

/-- Unfolding of the internal branch at legal depth: the decode is the
child-by-child traversal, each child decoded at `depth + 1`. -/
theorem extractEntriesFromNode_internal (node : JsValue) (depth maxDepth : Int)
    (hd : depth ≤ maxDepth)
    (ht : truthy node = true) (ho : isObjectType node = true)
    (hl : isBoolTrue (node.get "is_leaf") = false)
    (he : (node.get "children").get "entries" = .arr xs) :
    extractEntriesFromNode node depth maxDepth =
      internalChildren (fun v => extractEntriesFromNode v (depth + 1) maxDepth) xs := by
  unfold extractEntriesFromNode
  have hf : (maxDepth + 1 - depth).toNat = (maxDepth + 1 - (depth + 1)).toNat + 1 := by omega
  rw [hf]
  simp [extractGo, ht, ho, hl, he, jsIterate]

end Journal

namespace Journal

/-- `JournalEntry` as built by the pipeline.  The source annotates `content`
as a string, but at runtime it receives whatever truthy value
`extractMessageFromEntry` returned, so we keep it a `JsValue`. -/
structure JournalEntry where
  unixTimestamp : JsNum
  content : JsValue

/-- The conversion loop of `getJournalEntries` (lines 110–119): keep exactly
the decoded pairs whose value unwraps to a non-`null` message. -/
def buildJournalEntries (parsed : List (JsNum × JsValue)) : List JournalEntry :=
  parsed.filterMap fun kv =>
    match extractMessageFromEntry kv.2 with
    | some m => some ⟨kv.1, m⟩
    | none => none

/-- `comparator(a, b) = b.unixTimestamp - a.unixTimestamp < 0`, i.e. `a`
sorts strictly before `b`.  A `NaN` difference compares false, as in JS. -/
def entryBefore (a b : JournalEntry) : Bool :=
  match jsNumSub b.unixTimestamp a.unixTimestamp with
  | .int n => n < 0
  | .nan => false

/-- Insert `a` after every element it does not strictly precede.  Together
with the left-to-right fold below this is a stable sort; ECMAScript requires
`Array.prototype.sort` to be stable, and for a consistent comparator (here:
all timestamps are integers) every stable sort computes the same list, so
the choice of algorithm is observationally faithful. -/
def insertEntry (a : JournalEntry) : List JournalEntry → List JournalEntry
  | [] => [a]
  | b :: bs => if entryBefore a b then a :: b :: bs else b :: insertEntry a bs

/-- `journalEntries.sort((a, b) => b.unixTimestamp - a.unixTimestamp)`. -/
def sortJournalEntries (l : List JournalEntry) : List JournalEntry :=
  l.foldl (fun acc a => insertEntry a acc) []

/-- `getJournalObjectAddressFromGraphQL`'s result type: `address` is
`string | null` (`none` = `null`), `source` is `'graphql' | 'not_found'`. -/
structure JournalObjectAddressResult where
  address : Option String
  source : String

/-- Truthiness of a `string | null` JS value. -/
def optStrTruthy : Option String → Bool
  | none => false
  | some s => s != ""

/-- `s.includes(pat)`: the pattern occurs contiguously somewhere in `s`. -/
def includesSubstr (s pat : String) : Bool :=
  (List.range (s.toList.length + 1)).any fun i =>
    (s.toList.drop i).take pat.toList.length = pat.toList

/-- The `catch` block of `getJournalEntries` (lines 123–133): a 404 status or
a message containing "not found" collapses to an empty list, any other
exception is re-thrown. -/
def journalCatch (r : Except JsError (List JournalEntry)) :
    Except JsError (List JournalEntry) :=
  match r with
  | .ok l => .ok l
  | .error e =>
    if e.status = some 404 || includesSubstr e.message "not found" then .ok []
    else .error e

/-- The `try` body of `getJournalEntries` (lines 82–121), with its three
external inputs made explicit: the already-computed address-resolution
result, the `MODULE_ADDRESS` configuration value (`none` = unset), and the
outcome of the `getAccountResource` call (`.error` = the promise rejected).
-/
def getJournalEntriesBody (addressResult : JournalObjectAddressResult)
    (moduleAddress : Option String) (resourceOutcome : Except JsError JsValue) :
    Except JsError (List JournalEntry) :=
  if !(optStrTruthy addressResult.address) then .ok []
  else if !(optStrTruthy moduleAddress) then .error ⟨none, "MODULE_ADDRESS is not defined"⟩
  else
    match resourceOutcome with
    | .error e => .error e
    | .ok resource =>
      if !(truthy ((resource.get "daily_entries").get "root")) then .ok []
      else
        match extractEntriesFromNode ((resource.get "daily_entries").get "root") 0 20 with
        | .error e => .error e
        | .ok parsed => .ok (sortJournalEntries (buildJournalEntries parsed))

/-- `getJournalEntries` (lines 81–134): the `try` body wrapped in the
`catch` of lines 123–133. -/
def getJournalEntries (addressResult : JournalObjectAddressResult)
    (moduleAddress : Option String) (resourceOutcome : Except JsError JsValue) :
    Except JsError (List JournalEntry) :=
  journalCatch (getJournalEntriesBody addressResult moduleAddress resourceOutcome)

end Journal

theorem sizeOf_lookupField {fs : List (String × JsValue)} {key : String} {u : JsValue}
    (h : lookupField fs key = some u) : sizeOf u < sizeOf fs := by
  induction fs with
  | nil => simp [lookupField] at h
  | cons p rest ih =>
    obtain ⟨k, v⟩ := p
    by_cases hk : k = key
    · simp only [lookupField, hk, if_pos] at h
      cases h
      simp only [List.cons.sizeOf_spec, Prod.mk.sizeOf_spec]
      omega
    · simp only [lookupField, hk, if_neg, not_false_iff] at h
      have := ih h
      simp only [List.cons.sizeOf_spec]
      omega

theorem sizeOf_jsValue_pos (v : JsValue) : 0 < sizeOf v := by
  cases v <;> simp

theorem sizeOf_get_le (v : JsValue) (key : String) : sizeOf (v.get key) ≤ sizeOf v := by
  cases v <;> simp only [JsValue.get]
  case obj fs =>
    cases hl : lookupField fs key with
    | none => simp [hl]
    | some u =>
      simp only [hl, Option.getD_some]
      have := sizeOf_lookupField hl
      simp only [JsValue.obj.sizeOf_spec]
      omega
  all_goals simp

theorem sizeOf_get_lt (v : JsValue) (key : String) (h : v.get key ≠ .undefined) :
    sizeOf (v.get key) < sizeOf v := by
  cases v <;> simp only [JsValue.get] at h ⊢
  case obj fs =>
    cases hl : lookupField fs key with
    | none => simp [hl] at h
    | some u =>
      simp only [hl, Option.getD_some]
      have := sizeOf_lookupField hl
      simp only [JsValue.obj.sizeOf_spec]
      omega
  all_goals simp at h

namespace Diary

/-!
### The diary implementation shipped in
`src/view-functions/getDiaryObjectAddressFromGraphQL.ts`
(`extractMessageFromEntry`, `extractEntriesFromNode`, `parseBigOrderedMap`,
`getDiaryObjectAddressFromGraphQL` and the `getDiaryEntries` resolver head).
-/

/--
`extractMessageFromEntry` (diary variant, lines 134–160): a bare string is
returned as-is; an object is matched against the `MessageOnly` discriminant,
the nested `{MessageOnly: {message}}` shape, then a bare `message` field;
anything else yields `null` (`none`). -/
def extractMessageFromEntry (entry : JsValue) : Option JsValue :=
  if isString entry then some entry
  else if isObjectType entry && !(isNull entry) then
    if jsStrEq (entry.get "__variant__") "MessageOnly" && hasField entry "message" then
      some (entry.get "message")
    else if hasField entry "MessageOnly"
        && isObjectType (entry.get "MessageOnly") && !(isNull (entry.get "MessageOnly"))
        && hasField (entry.get "MessageOnly") "message" then
      some ((entry.get "MessageOnly").get "message")
    else if hasField entry "message" then some (entry.get "message")
    else none
  else none

/-- The one-layer `Leaf` unwrap inside the diary leaf loop:
`if (actualValue && typeof actualValue === "object" &&
actualValue.__variant__ === "Leaf" && actualValue.value) actualValue =
actualValue.value`. -/
def unwrapLeafValue (v : JsValue) : JsValue :=
  if truthy v && isObjectType v && jsStrEq (v.get "__variant__") "Leaf"
      && truthy (v.get "value") then
    v.get "value"
  else v

/-- Body of the diary leaf loop: presence-gated (`"key" in entry && "value"
in entry`, not truthiness-gated as in the journal variant). -/
def leafEntryItem (entry : JsValue) : Option (JsNum × JsValue) :=
  if truthy entry && isObjectType entry && hasField entry "key" && hasField entry "value" then
    some (coerceKey (entry.get "key"), unwrapLeafValue (entry.get "value"))
  else none

/--
`extractEntriesFromNode` (diary variant): no depth bound, but every loop is
guarded by `Array.isArray`, so the function is total and never throws.
Leaf branch: `node.is_leaf === true && node.children`, then entries must be
an array; internal branch: `node.children && node.children.entries`, again
requiring an array, recursing into each child entry's `value` when the child
is a non-null object with a `value` property. -/
def extractEntriesFromNode (node : JsValue) : List (JsNum × JsValue) :=
  if !(truthy node) || !(isObjectType node) then []
  else if isBoolTrue (node.get "is_leaf") && truthy (node.get "children") then
    match (node.get "children").get "entries" with
    | .arr items => items.filterMap leafEntryItem
    | _ => []
  else if hc : truthy (node.get "children") && truthy ((node.get "children").get "entries") then
    match he : (node.get "children").get "entries" with
    | .arr items =>
      (items.attach.map fun ce =>
        if truthy ce.1 && isObjectType ce.1 && hasField ce.1 "value" then
          extractEntriesFromNode (ce.1.get "value")
        else []).flatten
    | _ => []
  else []
termination_by sizeOf node
decreasing_by
  have hm : ce.1 ∈ items := ce.2
  have h1 : sizeOf (ce.1.get "value") ≤ sizeOf ce.1 := sizeOf_get_le ce.1 "value"
  have h2 : sizeOf ce.1 < sizeOf items := List.sizeOf_lt_of_mem hm
  have h3 : sizeOf ((node.get "children").get "entries") < sizeOf (node.get "children") := by
    apply sizeOf_get_lt
    rw [he]
    intro hcon
    cases hcon
  have h4 : sizeOf (node.get "children") < sizeOf node := by
    apply sizeOf_get_lt
    intro hcon
    rw [hcon] at hc
    simp [truthy] at hc
  rw [he] at h3
  simp only [JsValue.arr.sizeOf_spec] at h3
  omega

/-- One element of the flat-array fallback of `parseBigOrderedMap`: a
`[key, value]` pair (array of length ≥ 2) or a non-null object with `key`
and `value` properties, keys coerced exactly as in the tree decoder. -/
def flatPairItem (item : JsValue) : Option (JsNum × JsValue) :=
  if isArray item && decide (2 ≤ arrayLength item) then
    some (coerceKey (jsIndex item 0), jsIndex item 1)
  else if isObjectType item && !(isNull item) && hasField item "key" && hasField item "value" then
    some (coerceKey (item.get "key"), item.get "value")
  else none

/--
`parseBigOrderedMap` (lines 216–253): dispatch on the shape of the
`daily_entries` payload — guard, `BPlusTreeMap`-tagged root, untagged root,
literal array, opaque `handle`, and the silent default. -/
def parseBigOrderedMap (mapData : JsValue) : List (JsNum × JsValue) :=
  if !(truthy mapData) || !(isObjectType mapData) then []
  else if jsStrEq (mapData.get "__variant__") "BPlusTreeMap" && truthy (mapData.get "root") then
    extractEntriesFromNode (mapData.get "root")
  else if truthy (mapData.get "root") then
    extractEntriesFromNode (mapData.get "root")
  else if isArray mapData then
    match mapData with
    | .arr items => items.filterMap flatPairItem
    | _ => []
  else if truthy (mapData.get "handle") then []
  else []

/-- `DiaryObjectAddressResult`: `address : string | null`, `source :
'graphql' | 'not_found'`. -/
structure DiaryObjectAddressResult where
  address : Option String
  source : String

/--
`extractAddressString` (lines 18–30): a bare string is used directly; a
truthy `vec` wrapper that is an array with at least one element yields the
stringified first element; everything else yields `null`. -/
def extractAddressString (value : JsValue) : Option String :=
  match value with
  | .str s => some s
  | _ =>
    if truthy (value.get "vec") && isArray (value.get "vec")
        && decide (0 < arrayLength (value.get "vec")) then
      some (jsToString (jsIndex (value.get "vec") 0))
    else none

/--
`getDiaryObjectAddressFromGraphQL` (lines 44–94), as a function of the
`executeQuery` outcome: a rejected query is caught and collapsed to
`{address: null, source: 'not_found'}` (lines 86–93); a fulfilled query is
probed for `user_to_diary_object[0].user_diary_object_address`, the address
normalised by `extractAddressString`, and a truthy result returned with
`source: 'graphql'`; otherwise `not_found`. -/
def getDiaryObjectAddressFromGraphQL (queryOutcome : Except JsError JsValue) :
    DiaryObjectAddressResult :=
  match queryOutcome with
  | .error _ => ⟨none, "not_found"⟩
  | .ok data =>
    let row := jsIndex (data.get "user_to_diary_object") 0
    if truthy (row.get "user_diary_object_address") then
      match extractAddressString (row.get "user_diary_object_address") with
      | some a => if a != "" then ⟨some a, "graphql"⟩ else ⟨none, "not_found"⟩
      | none => ⟨none, "not_found"⟩
    else ⟨none, "not_found"⟩

/-- JS truthiness of the value held by the `diaryObjectAddress` variable in
`getDiaryEntries`: after the first assignment it holds the
`DiaryObjectAddressResult` OBJECT returned by the GraphQL helper — and an
object is always truthy, whatever its `address` field holds. -/
def resultObjectTruthy (_ : DiaryObjectAddressResult) : Bool := true

/--
The address-resolution head of `getDiaryEntries` (lines 255–270 of the
shipped file):
```
let diaryObjectAddress = await getDiaryObjectAddressFromGraphQL(userAddress);
if (!diaryObjectAddress) {
  diaryObjectAddress = await getDiaryObjectAddress(userAddress);
}
```
`ledgerAddr` is the value the blockchain view fallback would return
(`string | null`).  The result is the value the variable holds afterwards:
either the GraphQL result object (`Sum.inl`) or the fallback's string-or-null
(`Sum.inr`). -/
def diaryResolvedAddress (g : DiaryObjectAddressResult) (ledgerAddr : Option String) :
    Sum DiaryObjectAddressResult (Option String) :=
  if !(resultObjectTruthy g) then Sum.inr ledgerAddr else Sum.inl g

end Diary

/-!
## Claims
-/

/-- C7 (confirmed): address-field normalization.  A bare string is returned
as-is; a `vec` wrapper with a non-empty array yields its stringified first
element (so `{vec: ["0xABC"]}` yields `"0xABC"`); an empty wrapper
(`{vec: []}`) and any value matching neither shape yield `null`. -/
theorem c7_extractAddressString_normalization :
    (∀ s : String, Diary.extractAddressString (.str s) = some s)
    ∧ Diary.extractAddressString (.obj [("vec", .arr [.str "0xABC"])]) = some "0xABC"
    ∧ Diary.extractAddressString (.obj [("vec", .arr [])]) = none
    ∧ (∀ v : JsValue, isString v = false →
        isArray (v.get "vec") = false ∨ arrayLength (v.get "vec") = 0 →
        Diary.extractAddressString v = none) := by
  refine ⟨fun s => rfl, rfl, rfl, ?_⟩
  intro v h1 h2
  cases v <;> simp only [isString] at h1 <;>
    (try cases h1) <;>
    simp only [Diary.extractAddressString] <;>
    rcases h2 with h2 | h2 <;>
    simp [h2]

/-- Witness for C7 at `{foo: "bar"}` (a value matching neither known
shape, where the `vec` probe yields `undefined`). -/
theorem c7_witness :
    isString (JsValue.obj [("foo", .str "bar")]) = false
    ∧ isArray ((JsValue.obj [("foo", .str "bar")]).get "vec") = false
    ∧ Diary.extractAddressString (.obj [("foo", .str "bar")]) = none :=
  ⟨rfl, rfl, c7_extractAddressString_normalization.2.2.2 _ rfl (Or.inl rfl)⟩

/-- C4 counterexample: the claim says the value unwrapper returns a bare
string as-is, and it cites the journal `extractMessageFromEntry` (lines
14–19 of `getJournalEntries.ts`) as one of its subjects — but that function
matches only the `Leaf`-wrapper shape, so on the bare string `"hello"` it
returns `null`, not `"hello"`. -/
theorem c4_counterexample_journal_bare_string :
    Journal.extractMessageFromEntry (.str "hello") = none := rfl

/-- C4 (corrected): the two value unwrappers behave differently.  The diary
variant returns a bare string as-is and unwraps the `MessageOnly`
discriminant; the journal variant returns the payload only for values under
the `Leaf` wrapper whose `message` is truthy, and yields `null` on a bare
string; both yield `null` on unmatched shapes such as `{foo: "bar"}`
(and both are total functions, so no input throws). -/
theorem c4_value_unwrappers :
    (∀ s : String, Diary.extractMessageFromEntry (.str s) = some (.str s))
    ∧ (∀ s : String, Journal.extractMessageFromEntry (.str s) = none)
    ∧ (∀ m : JsValue, truthy m = true →
        Journal.extractMessageFromEntry
          (.obj [("__variant__", .str "Leaf"), ("value", .obj [("message", m)])]) = some m)
    ∧ (∀ m : JsValue,
        Diary.extractMessageFromEntry
          (.obj [("__variant__", .str "MessageOnly"), ("message", m)]) = some m)
    ∧ Journal.extractMessageFromEntry (.obj [("foo", .str "bar")]) = none
    ∧ Diary.extractMessageFromEntry (.obj [("foo", .str "bar")]) = none := by
  refine ⟨fun s => rfl, fun s => rfl, ?_, fun m => rfl, rfl, rfl⟩
  intro m h
  simp [Journal.extractMessageFromEntry, JsValue.get, lookupField, jsStrEq, h]

/-- Witness for C4's hypothesis-bearing conjunct, at the `Leaf`-wrapped
message `"hi"`. -/
theorem c4_witness :
    truthy (.str "hi") = true
    ∧ Journal.extractMessageFromEntry
        (.obj [("__variant__", .str "Leaf"), ("value", .obj [("message", .str "hi")])])
        = some (.str "hi") :=
  ⟨rfl, c4_value_unwrappers.2.2.1 (.str "hi") rfl⟩

/-- C5 (code_bug): the diary resolver's fallback is dead code.  The GraphQL
helper indeed never propagates an exception — a rejected query collapses to
`{address: null, source: 'not_found'}` — but the guard
`if (!diaryObjectAddress)` in `getDiaryEntries` tests the truthiness of the
result OBJECT, which is always truthy, so the ledger-derived fallback is
never attempted whatever the ledger would have answered, and the
`{address: null}` object itself flows on as the account address. -/
theorem c5_diary_fallback_never_attempted :
    (∀ e : JsError, Diary.getDiaryObjectAddressFromGraphQL (.error e) = ⟨none, "not_found"⟩)
    ∧ (∀ (g : Diary.DiaryObjectAddressResult) (ledgerAddr : Option String),
        Diary.diaryResolvedAddress g ledgerAddr = Sum.inl g)
    ∧ Diary.diaryResolvedAddress
        (Diary.getDiaryObjectAddressFromGraphQL (.error ⟨none, "network error"⟩))
        (some "0x123")
      = Sum.inl ⟨none, "not_found"⟩ :=
  ⟨fun _ => rfl, fun _ _ => rfl, rfl⟩

/-- The guard of the diary tree decoder: a falsy or non-object node decodes
to the empty list. -/
theorem diary_extract_guard (v : JsValue)
    (h : truthy v = false ∨ isObjectType v = false) :
    Diary.extractEntriesFromNode v = [] := by
  rcases h with h | h <;>
    (rw [Diary.extractEntriesFromNode]; simp [h])

/-- C6 (confirmed): shape dispatch of `parseBigOrderedMap`.  A (truthy,
object) payload with a `root` property is decoded by the tree decoder on
that root whether or not the `BPlusTreeMap` discriminant is present (a falsy
root makes both sides empty); a literal array is read element-wise as
`[key, value]` pairs or `{key, value}` objects via `flatPairItem` (which
applies the same decimal key coercion `coerceKey`); any other object —
including one exposing only an opaque `handle` — yields the empty list; and
a falsy or non-object payload yields the empty list.  All branches are
total, so no input is an error. -/
theorem c6_parseBigOrderedMap_dispatch :
    (∀ m : JsValue, truthy m = true → isObjectType m = true → hasField m "root" = true →
        Diary.parseBigOrderedMap m = Diary.extractEntriesFromNode (m.get "root"))
    ∧ (∀ items : List JsValue,
        Diary.parseBigOrderedMap (.arr items) = items.filterMap Diary.flatPairItem)
    ∧ (∀ m : JsValue, truthy m = true → isObjectType m = true →
        truthy (m.get "root") = false → isArray m = false →
        Diary.parseBigOrderedMap m = [])
    ∧ (∀ m : JsValue, truthy m = false ∨ isObjectType m = false →
        Diary.parseBigOrderedMap m = []) := by
  refine ⟨?_, fun items => rfl, ?_, ?_⟩
  · intro m ht ho hr
    cases hroot : truthy (m.get "root") with
    | true =>
      cases hv : jsStrEq (m.get "__variant__") "BPlusTreeMap" <;>
        simp [Diary.parseBigOrderedMap, ht, ho, hroot, hv]
    | false =>
      have hm : isArray m = false := by
        cases m <;> simp_all [hasField, isArray]
      simp [Diary.parseBigOrderedMap, ht, ho, hroot, hm,
        diary_extract_guard (m.get "root") (Or.inl hroot)]
  · intro m ht ho hroot harr
    simp [Diary.parseBigOrderedMap, ht, ho, hroot, harr]
  · intro m h
    rcases h with h | h <;> simp [Diary.parseBigOrderedMap, h]

/-- Witness for C6 at a payload whose `root` is `null` (first conjunct) —
the dispatch hands `null` to the tree decoder, which returns the empty
list. -/
theorem c6_witness :
    truthy (JsValue.obj [("root", .null)]) = true
    ∧ hasField (JsValue.obj [("root", .null)]) "root" = true
    ∧ Diary.parseBigOrderedMap (.obj [("root", .null)])
        = Diary.extractEntriesFromNode ((JsValue.obj [("root", .null)]).get "root") :=
  ⟨rfl, rfl, c6_parseBigOrderedMap_dispatch.1 _ rfl rfl rfl⟩

/-- A leaf node holding the single entry `(1000 + k, "m")`, used for the
synthetic depth-bound test of C1. -/
def chainLeaf (k : Nat) : JsValue :=
  .obj [("is_leaf", .bool true),
        ("children", .obj [("entries",
          .arr [.obj [("key", .num (1000 + (k : Int))), ("value", .str "m")]])])]

/-- A chain of nested internal nodes: `chainNode (k+1)` is an internal node
whose children are the leaf `chainLeaf (k+1)` and the next link `chainNode
k`; `chainNode 0` is the innermost leaf.  `chainNode 25` therefore has 25
internal nodes, each wrapping one leaf entry, with `chainLeaf i` sitting at
recursion depth `26 - i`. -/
def chainNode : Nat → JsValue
  | 0 => chainLeaf 0
  | k + 1 =>
    .obj [("children", .obj [("entries",
      .arr [.obj [("value", chainLeaf (k + 1))],
            .obj [("value", chainNode k)]])])]

/-- C1: guard and depth bound of the journal tree decoder.  (a) For all
integer `depth`/`maxDepth` and every node, excessive depth, a falsy node or
a non-object node yields the empty sequence without an exception (and the
decoder always terminates: the embedding is total by fuel
`maxDepth + 1 - depth`).  (b) On the synthetic chain of 25 nested internal
nodes with `maxDepth = 20`, exactly the 20 leaf entries at depth ≤ 20 (keys
1025 down to 1006) are returned and the 6 deeper ones are absent.  (c) But
the "never raises" part of the claim fails: a leaf node whose truthy
`children.entries` is not iterable (here the number `42`) makes the
unguarded `for...of` throw a `TypeError`, which the embedding records as an
`Except.error`. -/
theorem c1_decoder_depth_bound_and_guard :
    (∀ (node : JsValue) (depth maxDepth : Int),
        depth > maxDepth ∨ truthy node = false ∨ isObjectType node = false →
        Journal.extractEntriesFromNode node depth maxDepth = .ok [])
    ∧ Journal.extractEntriesFromNode (chainNode 25) 0 20
        = .ok ((List.range 20).map fun j => (JsNum.int (1025 - (j : Int)), .str "m"))
    ∧ Journal.extractEntriesFromNode
        (.obj [("is_leaf", .bool true), ("children", .obj [("entries", .num 42)])]) 0 20
        = .error ⟨none, "is not iterable"⟩ := by
  refine ⟨fun node depth maxDepth h => Journal.extractEntriesFromNode_guard node depth maxDepth h, ?_, rfl⟩
  rfl

/-- Witness for C1's guarded conjunct: at depth 21 with ceiling 20 an
(otherwise decodable) leaf yields the empty sequence. -/
theorem c1_witness :
    ((21 : Int) > 20 ∨ truthy (chainLeaf 3) = false ∨ isObjectType (chainLeaf 3) = false)
    ∧ Journal.extractEntriesFromNode (chainLeaf 3) 21 20 = .ok [] :=
  ⟨Or.inl (by decide), c1_decoder_depth_bound_and_guard.1 (chainLeaf 3) 21 20 (Or.inl (by decide))⟩

/-- The internal-node loop computes the concatenation, in child order, of
the per-child results, when every recursive decode succeeds. -/
theorem internalChildren_concat
    (rec : JsValue → Except JsError (List (JsNum × JsValue)))
    (xs : List JsValue) (rs : List (List (JsNum × JsValue)))
    (h : (xs.filter fun c => truthy (c.get "value")).map (fun c => rec (c.get "value"))
          = rs.map Except.ok) :
    Journal.internalChildren rec xs = .ok rs.flatten := by
  induction xs generalizing rs with
  | nil =>
    simp only [List.filter_nil, List.map_nil] at h
    have : rs = [] := by
      cases rs with
      | nil => rfl
      | cons r rt => simp at h
    subst this
    rfl
  | cons c cs ih =>
    cases hv : truthy (c.get "value") with
    | false =>
      rw [List.filter_cons_of_neg (by simp [hv])] at h
      simpa [Journal.internalChildren, hv] using ih rs h
    | true =>
      rw [List.filter_cons_of_pos (by simp [hv])] at h
      cases rs with
      | nil => simp at h
      | cons r rt =>
        simp only [List.map_cons, List.cons.injEq] at h
        obtain ⟨h1, h2⟩ := h
        simp [Journal.internalChildren, hv, h1, ih rt h2]

/-- If a list of `Except` results consists of successes `rs` and each result
is the empty list, the concatenation is empty. -/
theorem flatten_nil_of_all_nil {α : Type} {f : α → Except JsError (List (JsNum × JsValue))}
    {l : List α} {rs : List (List (JsNum × JsValue))}
    (h : l.map f = rs.map Except.ok) (hall : ∀ c ∈ l, f c = .ok []) :
    rs.flatten = [] := by
  induction l generalizing rs with
  | nil =>
    cases rs with
    | nil => rfl
    | cons r rt => simp at h
  | cons c cs ih =>
    cases rs with
    | nil => simp at h
    | cons r rt =>
      simp only [List.map_cons, List.cons.injEq] at h
      obtain ⟨h1, h2⟩ := h
      have hr : r = [] := by
        have := hall c (by simp)
        rw [this] at h1
        exact (Except.ok.injEq _ _).mp h1.symm
      subst hr
      simpa using ih h2 (fun x hx => hall x (by simp [hx]))

/-- C2 (confirmed): on an internal node (truthy object, not `is_leaf ===
true`, whose `children.entries` is an array `xs`), the decoder's output is
the concatenation, in child order, of the recursive decodes of the children
that carry a truthy `value` — each decoded at `depth + 1` — and children
without a value contribute nothing.  `rs` is the list of those per-child
results. -/
theorem c2_internal_node_concatenation
    (node : JsValue) (depth maxDepth : Int) (xs : List JsValue)
    (rs : List (List (JsNum × JsValue)))
    (ht : truthy node = true) (ho : isObjectType node = true)
    (hl : isBoolTrue (node.get "is_leaf") = false)
    (he : (node.get "children").get "entries" = .arr xs)
    (hrec : (xs.filter fun c => truthy (c.get "value")).map
              (fun c => Journal.extractEntriesFromNode (c.get "value") (depth + 1) maxDepth)
            = rs.map Except.ok) :
    Journal.extractEntriesFromNode node depth maxDepth = .ok rs.flatten := by
  by_cases hd : depth ≤ maxDepth
  · rw [Journal.extractEntriesFromNode_internal node depth maxDepth hd ht ho hl he]
    exact internalChildren_concat _ xs rs hrec
  · have hguard : Journal.extractEntriesFromNode node depth maxDepth = .ok [] :=
      Journal.extractEntriesFromNode_guard node depth maxDepth (Or.inl (by omega))
    have hnil : rs.flatten = [] := by
      refine flatten_nil_of_all_nil hrec (fun c _ => ?_)
      exact Journal.extractEntriesFromNode_guard _ _ _ (Or.inl (by omega))
    rw [hguard, hnil]

/-- Witness for C2: a concrete internal node with three children — two leaf
children carrying one entry each and one child without a `value` — decodes
to the two leaf entries in child order. -/
theorem c2_witness :
    (truthy (JsValue.obj [("children", .obj [("entries", .arr
        [.obj [("value", chainLeaf 1)], .obj [("other", .num 7)],
         .obj [("value", chainLeaf 2)]])])]) = true)
    ∧ Journal.extractEntriesFromNode
        (.obj [("children", .obj [("entries", .arr
          [.obj [("value", chainLeaf 1)], .obj [("other", .num 7)],
           .obj [("value", chainLeaf 2)]])])]) 0 20
        = .ok [(JsNum.int 1001, .str "m"), (JsNum.int 1002, .str "m")] := by
  constructor
  · rfl
  · have h := c2_internal_node_concatenation
      (.obj [("children", .obj [("entries", .arr
        [.obj [("value", chainLeaf 1)], .obj [("other", .num 7)],
         .obj [("value", chainLeaf 2)]])])]) 0 20
      [.obj [("value", chainLeaf 1)], .obj [("other", .num 7)], .obj [("value", chainLeaf 2)]]
      [[(JsNum.int 1001, .str "m")], [(JsNum.int 1002, .str "m")]]
      rfl rfl rfl rfl rfl
    simpa using h

theorem digit_not_whitespace (c : Char) (h : c.isDigit = true) :
    isWhitespaceChar c = false := by
  unfold isWhitespaceChar
  by_contra hc
  simp only [Bool.not_eq_false, Bool.or_eq_true, decide_eq_true_eq] at hc
  rcases hc with ((hc | hc) | hc) | hc <;> subst hc <;> exact absurd h (by decide)

theorem signSplit_of_digit (c : Char) (rest : List Char) (h : c.isDigit = true) :
    signSplit (c :: rest) = (1, c :: rest) := by
  have hminus : c ≠ '-' := by rintro rfl; exact absurd h (by decide)
  have hplus : c ≠ '+' := by rintro rfl; exact absurd h (by decide)
  unfold signSplit
  split
  · next heq => injection heq with hch _; exact absurd hch hminus
  · next heq => injection heq with hch _; exact absurd hch hplus
  · rfl

theorem takeWhile_digits (l : List Char) (h : ∀ c ∈ l, c.isDigit = true) :
    l.takeWhile Char.isDigit = l := by
  induction l with
  | nil => rfl
  | cons c cs ih =>
    simp [List.takeWhile_cons, h c (by simp),
      ih (fun x hx => h x (by simp [hx]))]

/-- `parseInt` on a non-empty all-digit string is the decimal value of its
digits. -/
theorem jsParseInt10_digits (l : List Char) (h1 : l ≠ [])
    (h2 : ∀ c ∈ l, c.isDigit = true) :
    jsParseInt10 (String.mk l) = .int (digitsVal l) := by
  obtain ⟨c, rest, rfl⟩ := List.exists_cons_of_ne_nil h1
  have hcdig := h2 c (by simp)
  unfold jsParseInt10
  have htl : (String.mk (c :: rest)).toList = c :: rest := rfl
  rw [htl]
  rw [List.dropWhile_cons]
  rw [digit_not_whitespace c hcdig]
  simp only [if_false, Bool.false_eq_true]
  rw [signSplit_of_digit c rest hcdig]
  simp only [takeWhile_digits (c :: rest) h2]
  simp

/-- C3 counterexample: a leaf entry whose `key` and `value` fields are both
PRESENT — `{key: 0, value: "x"}` — is nevertheless dropped, because the
source gates emission on `entry?.key && entry?.value`, i.e. truthiness, and
the number `0` is falsy.  The claim, as stated ("whose key and value are
both present"), demands this pair be emitted. -/
theorem c3_counterexample_present_but_falsy_key :
    Journal.extractEntriesFromNode
      (.obj [("is_leaf", .bool true), ("children", .obj [("entries",
        .arr [.obj [("key", .num 0), ("value", .str "x")]])])]) 0 20 = .ok [] := rfl

/-- C3 (corrected): on a structural leaf at legal depth the decoder emits,
in the given order, exactly the `{key, value}` pairs whose key and value are
both TRUTHY (not merely present); each emitted key goes through the shared
coercion `coerceKey`, which parses a non-empty all-digit string to its
decimal value and maps an integer number to itself — the same decimal
value either way. -/
theorem c3_leaf_decode_order_and_coercion :
    (∀ (node : JsValue) (depth maxDepth : Int) (xs : List JsValue),
        depth ≤ maxDepth → truthy node = true → isObjectType node = true →
        isBoolTrue (node.get "is_leaf") = true →
        (node.get "children").get "entries" = .arr xs →
        Journal.extractEntriesFromNode node depth maxDepth
          = .ok (xs.filterMap Journal.leafEntryItem))
    ∧ (∀ e : JsValue, truthy (e.get "key") = true → truthy (e.get "value") = true →
        Journal.leafEntryItem e = some (coerceKey (e.get "key"), e.get "value"))
    ∧ (∀ l : List Char, l ≠ [] → (∀ c ∈ l, c.isDigit = true) →
        coerceKey (.str (String.mk l)) = .int (digitsVal l))
    ∧ (∀ n : Int, coerceKey (.num n) = .int n) := by
  refine ⟨?_, ?_, ?_, fun n => rfl⟩
  · intro node depth maxDepth xs hd ht ho hl he
    exact Journal.extractEntriesFromNode_leaf node depth maxDepth hd ht ho hl he
  · intro e h1 h2
    simp [Journal.leafEntryItem, h1, h2]
  · intro l h1 h2
    simpa [coerceKey] using jsParseInt10_digits l h1 h2

/-- Witness for C3 on a two-entry leaf with decimal-string keys: the pairs
come out in order with parsed integer keys. -/
theorem c3_witness :
    ((0 : Int) ≤ 20)
    ∧ Journal.extractEntriesFromNode
        (.obj [("is_leaf", .bool true), ("children", .obj [("entries",
          .arr [.obj [("key", .str "100"), ("value", .str "a")],
                .obj [("key", .str "200"), ("value", .str "b")]])])]) 0 20
        = .ok [(JsNum.int 100, .str "a"), (JsNum.int 200, .str "b")] := by
  refine ⟨by decide, ?_⟩
  have h := c3_leaf_decode_order_and_coercion.1
    (.obj [("is_leaf", .bool true), ("children", .obj [("entries",
      .arr [.obj [("key", .str "100"), ("value", .str "a")],
            .obj [("key", .str "200"), ("value", .str "b")]])])]) 0 20
    [.obj [("key", .str "100"), ("value", .str "a")],
     .obj [("key", .str "200"), ("value", .str "b")]]
    (by decide) rfl rfl rfl rfl
  exact h.trans rfl

/-- All entries carry integer (non-`NaN`) timestamps — the situation for
every payload whose keys are decimal strings or integer numbers, and the
only situation in which the ECMAScript comparator sort is specified at all. -/
def intKeyed (l : List Journal.JournalEntry) : Prop :=
  ∀ e ∈ l, ∃ n : Int, e.unixTimestamp = JsNum.int n

/-- `a`'s timestamp is an integer at least `b`'s — the descending order
relation on entries. -/
def keyGE (a b : Journal.JournalEntry) : Prop :=
  ∃ na nb : Int, a.unixTimestamp = JsNum.int na ∧ b.unixTimestamp = JsNum.int nb ∧ nb ≤ na

theorem entryBefore_int {a b : Journal.JournalEntry} {ka kb : Int}
    (hA : a.unixTimestamp = .int ka) (hB : b.unixTimestamp = .int kb) :
    Journal.entryBefore a b = decide (kb < ka) := by
  simp only [Journal.entryBefore, hA, hB, jsNumSub]
  rcases lt_or_le kb ka with h | h
  · rw [decide_eq_true (by omega : kb - ka < 0), decide_eq_true h]
  · rw [decide_eq_false (by omega : ¬ kb - ka < 0), decide_eq_false (by omega : ¬ kb < ka)]

theorem insertEntry_perm (a : Journal.JournalEntry) (l : List Journal.JournalEntry) :
    (Journal.insertEntry a l).Perm (a :: l) := by
  induction l with
  | nil => exact List.Perm.refl _
  | cons b bs ih =>
    by_cases h : Journal.entryBefore a b = true
    · simp [Journal.insertEntry, h]
    · simp only [Journal.insertEntry, h, Bool.false_eq_true, if_false]
      exact (ih.cons b).trans (List.Perm.swap a b bs)

theorem foldl_insert_perm (l : List Journal.JournalEntry) :
    ∀ acc, (List.foldl (fun acc a => Journal.insertEntry a acc) acc l).Perm (acc ++ l) := by
  induction l with
  | nil => intro acc; simp
  | cons x xs ih =>
    intro acc
    simp only [List.foldl_cons]
    refine (ih (Journal.insertEntry x acc)).trans ?_
    refine ((insertEntry_perm x acc).append_right xs).trans ?_
    exact List.perm_middle.symm

theorem sortJournalEntries_perm (l : List Journal.JournalEntry) :
    (Journal.sortJournalEntries l).Perm l := by
  simpa [Journal.sortJournalEntries] using foldl_insert_perm l []

theorem insertEntry_sorted (a : Journal.JournalEntry) (l : List Journal.JournalEntry)
    (ha : ∃ n : Int, a.unixTimestamp = JsNum.int n) (hl : intKeyed l)
    (hs : List.Pairwise keyGE l) :
    List.Pairwise keyGE (Journal.insertEntry a l) := by
  induction l with
  | nil => simp [Journal.insertEntry]
  | cons b bs ih =>
    obtain ⟨ka, hka⟩ := ha
    obtain ⟨kb, hkb⟩ := hl b (by simp)
    rw [List.pairwise_cons] at hs
    obtain ⟨hb_all, hs_bs⟩ := hs
    by_cases h : Journal.entryBefore a b = true
    · have hlt : kb < ka := by
        rw [entryBefore_int hka hkb] at h
        exact of_decide_eq_true h
      simp only [Journal.insertEntry, h, if_true]
      rw [List.pairwise_cons]
      refine ⟨?_, List.pairwise_cons.mpr ⟨hb_all, hs_bs⟩⟩
      intro x hx
      rcases List.mem_cons.mp hx with rfl | hx
      · exact ⟨ka, kb, hka, hkb, le_of_lt hlt⟩
      · obtain ⟨kb2, kx, hb2, hx2, hle⟩ := hb_all x hx
        have hkb2 : kb2 = kb := by
          rw [hkb] at hb2
          exact (JsNum.int.injEq _ _).mp hb2.symm
        exact ⟨ka, kx, hka, hx2, by omega⟩
    · have hle : ka ≤ kb := by
        rw [entryBefore_int hka hkb] at h
        have := of_decide_eq_false (Bool.not_eq_true _ ▸ h)
        omega
      simp only [Journal.insertEntry, h, Bool.false_eq_true, if_false]
      rw [List.pairwise_cons]
      refine ⟨?_, ih (fun e he => hl e (List.mem_cons_of_mem _ he)) hs_bs⟩
      intro x hx
      have hmem := (insertEntry_perm a bs).mem_iff.mp hx
      rcases List.mem_cons.mp hmem with rfl | hx2
      · exact ⟨kb, ka, hkb, hka, hle⟩
      · exact hb_all x hx2

theorem foldl_insert_sorted (l : List Journal.JournalEntry) :
    ∀ acc, intKeyed l → intKeyed acc → List.Pairwise keyGE acc →
      List.Pairwise keyGE (List.foldl (fun acc a => Journal.insertEntry a acc) acc l) := by
  induction l with
  | nil => intro acc _ _ hs; exact hs
  | cons x xs ih =>
    intro acc hkl hka hs
    simp only [List.foldl_cons]
    refine ih (Journal.insertEntry x acc) (fun e he => hkl e (List.mem_cons_of_mem _ he))
      ?_ (insertEntry_sorted x acc (hkl x (by simp)) hka hs)
    intro e he
    have := (insertEntry_perm x acc).mem_iff.mp he
    rcases List.mem_cons.mp this with rfl | h2
    · exact hkl e (by simp)
    · exact hka e h2

theorem sortJournalEntries_sorted (l : List Journal.JournalEntry) (hk : intKeyed l) :
    List.Pairwise keyGE (Journal.sortJournalEntries l) := by
  have h := foldl_insert_sorted l [] hk (by intro e he; cases he) (by simp)
  simpa [Journal.sortJournalEntries] using h

/-- Decidable "this entry has timestamp `k`" predicate, for stating tie
stability. -/
def keyFilterPred (k : Int) (e : Journal.JournalEntry) : Bool :=
  e.unixTimestamp == JsNum.int k

theorem insertEntry_filter (a : Journal.JournalEntry) (l : List Journal.JournalEntry)
    (k : Int) (ha : ∃ n : Int, a.unixTimestamp = JsNum.int n) (hl : intKeyed l)
    (hs : List.Pairwise keyGE l) :
    (Journal.insertEntry a l).filter (keyFilterPred k) =
      l.filter (keyFilterPred k) ++ (if keyFilterPred k a then [a] else []) := by
  induction l with
  | nil =>
    cases hpa : keyFilterPred k a <;> simp [Journal.insertEntry, List.filter_cons, hpa]
  | cons b bs ih =>
    obtain ⟨ka, hka⟩ := ha
    obtain ⟨kb, hkb⟩ := hl b (by simp)
    rw [List.pairwise_cons] at hs
    obtain ⟨hb_all, hs_bs⟩ := hs
    by_cases h : Journal.entryBefore a b = true
    · have hlt : kb < ka := by
        rw [entryBefore_int hka hkb] at h
        exact of_decide_eq_true h
      simp only [Journal.insertEntry, h, if_true]
      by_cases hpa : keyFilterPred k a = true
      · have hka_k : ka = k := by
          simp only [keyFilterPred, hka, beq_iff_eq, JsNum.int.injEq] at hpa
          exact hpa
        have hnil : (b :: bs).filter (keyFilterPred k) = [] := by
          rw [List.filter_eq_nil_iff]
          intro x hx
          rcases List.mem_cons.mp hx with rfl | hx2
          · simp only [keyFilterPred, hkb, beq_iff_eq, JsNum.int.injEq]
            omega
          · obtain ⟨kb2, kx, hb2, hx2e, hle⟩ := hb_all x hx2
            have hkb2 : kb2 = kb := by
              rw [hkb] at hb2
              exact (JsNum.int.injEq _ _).mp hb2.symm
            simp only [keyFilterPred, hx2e, beq_iff_eq, JsNum.int.injEq]
            omega
        rw [List.filter_cons_of_pos hpa, hnil]
        simp [hpa]
      · rw [List.filter_cons_of_neg (by simpa using hpa)]
        simp [hpa]
    · have hle : ka ≤ kb := by
        rw [entryBefore_int hka hkb] at h
        have := of_decide_eq_false (Bool.not_eq_true _ ▸ h)
        omega
      simp only [Journal.insertEntry, h, Bool.false_eq_true, if_false]
      have ihh := ih (fun e he => hl e (List.mem_cons_of_mem _ he)) hs_bs
      by_cases hpb : keyFilterPred k b = true
      · rw [List.filter_cons_of_pos hpb, List.filter_cons_of_pos hpb, ihh]
        simp
      · rw [List.filter_cons_of_neg (by simpa using hpb),
          List.filter_cons_of_neg (by simpa using hpb), ihh]

theorem foldl_insert_filter (l : List Journal.JournalEntry) :
    ∀ acc (k : Int), intKeyed l → intKeyed acc → List.Pairwise keyGE acc →
      (List.foldl (fun acc a => Journal.insertEntry a acc) acc l).filter (keyFilterPred k)
        = acc.filter (keyFilterPred k) ++ l.filter (keyFilterPred k) := by
  induction l with
  | nil => intro acc k _ _ _; simp
  | cons x xs ih =>
    intro acc k hkl hka hs
    simp only [List.foldl_cons]
    rw [ih (Journal.insertEntry x acc) k (fun e he => hkl e (List.mem_cons_of_mem _ he))
      ?_ (insertEntry_sorted x acc (hkl x (by simp)) hka hs)]
    · rw [insertEntry_filter x acc k (hkl x (by simp)) hka hs]
      rw [List.filter_cons]
      by_cases hpx : keyFilterPred k x = true <;> simp [hpx]
    · intro e he
      have := (insertEntry_perm x acc).mem_iff.mp he
      rcases List.mem_cons.mp this with rfl | h2
      · exact hkl e (by simp)
      · exact hka e h2

/-- Tie stability of the pipeline sort: for every key, the entries carrying
that key appear in the sorted output exactly as they appeared in the
decoder's output. -/
theorem sortJournalEntries_filter (l : List Journal.JournalEntry) (k : Int)
    (hk : intKeyed l) :
    (Journal.sortJournalEntries l).filter (keyFilterPred k)
      = l.filter (keyFilterPred k) := by
  have h := foldl_insert_filter l [] k hk (by intro e he; cases he) (by simp)
  simpa [Journal.sortJournalEntries] using h

/-- C9 (confirmed): when the pipeline reaches the decode stage (address and
module configured, truthy root) and decoding succeeds, `getJournalEntries`
returns the stable descending sort of the decoded-and-unwrapped entries:
the output is pairwise descending in the integer timestamps, is a
permutation of the decoder's list, and preserves, for every key, the source
order of the entries carrying that key (tie stability).  The integer-key
hypothesis scopes the statement to timestamps that are not `NaN`, the only
case in which ECMAScript specifies the comparator sort at all (and the only
case produced by well-formed ledger payloads, whose keys are decimal
strings). -/
theorem c9_sorted_descending
    (a : Journal.JournalObjectAddressResult) (moduleAddress : Option String)
    (resource : JsValue) (parsed : List (JsNum × JsValue))
    (ha : Journal.optStrTruthy a.address = true)
    (hm : Journal.optStrTruthy moduleAddress = true)
    (hroot : truthy ((resource.get "daily_entries").get "root") = true)
    (hex : Journal.extractEntriesFromNode ((resource.get "daily_entries").get "root") 0 20
            = .ok parsed)
    (hkeys : intKeyed (Journal.buildJournalEntries parsed))
    (hne : Journal.buildJournalEntries parsed ≠ []) :
    Journal.getJournalEntries a moduleAddress (.ok resource)
        = .ok (Journal.sortJournalEntries (Journal.buildJournalEntries parsed))
    ∧ List.Pairwise keyGE (Journal.sortJournalEntries (Journal.buildJournalEntries parsed))
    ∧ (Journal.sortJournalEntries (Journal.buildJournalEntries parsed)).Perm
        (Journal.buildJournalEntries parsed)
    ∧ ∀ k : Int,
        (Journal.sortJournalEntries (Journal.buildJournalEntries parsed)).filter
            (keyFilterPred k)
          = (Journal.buildJournalEntries parsed).filter (keyFilterPred k) := by
  refine ⟨?_, sortJournalEntries_sorted _ hkeys, sortJournalEntries_perm _,
    fun k => sortJournalEntries_filter _ k hkeys⟩
  simp [Journal.getJournalEntries, Journal.getJournalEntriesBody, Journal.journalCatch,
    ha, hm, hroot, hex]

/-- A leaf entry `{key, value: {__variant__: "Leaf", value: {message}}}` as
the ledger serialises journal entries. -/
def journalFixtureEntry (k m : String) : JsValue :=
  .obj [("key", .str k),
        ("value", .obj [("__variant__", .str "Leaf"),
                        ("value", .obj [("message", .str m)])])]

/-- A `UserJournalEntries` resource whose root leaf holds keys
100, 300, 200 (in that source order). -/
def journalFixtureResource : JsValue :=
  .obj [("daily_entries", .obj [("root",
    .obj [("is_leaf", .bool true),
          ("children", .obj [("entries", .arr
            [journalFixtureEntry "100" "a",
             journalFixtureEntry "300" "b",
             journalFixtureEntry "200" "c"])])])])]

/-- The decoder's output on the fixture. -/
def journalFixtureParsed : List (JsNum × JsValue) :=
  [(.int 100, .obj [("__variant__", .str "Leaf"), ("value", .obj [("message", .str "a")])]),
   (.int 300, .obj [("__variant__", .str "Leaf"), ("value", .obj [("message", .str "b")])]),
   (.int 200, .obj [("__variant__", .str "Leaf"), ("value", .obj [("message", .str "c")])])]

/-- Witness for C9: on the keys `[100, 300, 200]` the pipeline returns them
in the order `[300, 200, 100]`. -/
theorem c9_witness :
    Journal.optStrTruthy (some "0xabc") = true
    ∧ Journal.extractEntriesFromNode
        ((journalFixtureResource.get "daily_entries").get "root") 0 20
        = .ok journalFixtureParsed
    ∧ Journal.buildJournalEntries journalFixtureParsed ≠ []
    ∧ Journal.getJournalEntries ⟨some "0xabc", "graphql"⟩ (some "0xmod")
        (.ok journalFixtureResource)
        = .ok (Journal.sortJournalEntries (Journal.buildJournalEntries journalFixtureParsed))
    ∧ Journal.sortJournalEntries (Journal.buildJournalEntries journalFixtureParsed)
        = [⟨.int 300, .str "b"⟩, ⟨.int 200, .str "c"⟩, ⟨.int 100, .str "a"⟩] := by
  have hb : Journal.buildJournalEntries journalFixtureParsed
      = [⟨.int 100, .str "a"⟩, ⟨.int 300, .str "b"⟩, ⟨.int 200, .str "c"⟩] := rfl
  have hkeys : intKeyed (Journal.buildJournalEntries journalFixtureParsed) := by
    rw [hb]
    intro e he
    simp only [List.mem_cons, List.not_mem_nil, or_false] at he
    rcases he with rfl | rfl | rfl
    · exact ⟨100, rfl⟩
    · exact ⟨300, rfl⟩
    · exact ⟨200, rfl⟩
  have hne : Journal.buildJournalEntries journalFixtureParsed ≠ [] := by
    rw [hb]; simp
  have h := c9_sorted_descending ⟨some "0xabc", "graphql"⟩ (some "0xmod")
    journalFixtureResource journalFixtureParsed rfl rfl rfl rfl hkeys hne
  exact ⟨rfl, rfl, hne, h.1, rfl⟩

/-- C8 counterexample: the claim says `getJournalEntries` throws ONLY on a
configuration fault, but with the module address configured a ledger read
that rejects with status 500 is re-thrown by the `catch` block (it is
neither status 404 nor a "not found" message), so the caller sees a
non-configuration exception. -/
theorem c8_counterexample_500_propagates :
    Journal.getJournalEntries ⟨some "0xabc", "graphql"⟩ (some "0xmod")
      (.error ⟨some 500, "Internal Server Error"⟩)
      = .error ⟨some 500, "Internal Server Error"⟩ := rfl

/-- C8 (corrected): `getJournalEntries` absorbs the absence class — no
resolved address, a 404-status or "not found"-message ledger error, a
missing/falsy `daily_entries.root` — into the empty list, and throws on a
configuration fault (unset module address); but it also propagates every
other failure unchanged: a ledger read rejection that is neither status 404
nor "not found", and a decode-time exception of the same shape. -/
theorem c8_error_surface :
    (∀ (a : Journal.JournalObjectAddressResult) (m : Option String)
        (r : Except JsError JsValue), Journal.optStrTruthy a.address = false →
        Journal.getJournalEntries a m r = .ok [])
    ∧ (∀ (a : Journal.JournalObjectAddressResult) (m : Option String)
        (r : Except JsError JsValue), Journal.optStrTruthy a.address = true →
        Journal.optStrTruthy m = false →
        Journal.getJournalEntries a m r = .error ⟨none, "MODULE_ADDRESS is not defined"⟩)
    ∧ (∀ (a : Journal.JournalObjectAddressResult) (m : Option String) (e : JsError),
        Journal.optStrTruthy a.address = true → Journal.optStrTruthy m = true →
        e.status = some 404 ∨ Journal.includesSubstr e.message "not found" = true →
        Journal.getJournalEntries a m (.error e) = .ok [])
    ∧ (∀ (a : Journal.JournalObjectAddressResult) (m : Option String) (e : JsError),
        Journal.optStrTruthy a.address = true → Journal.optStrTruthy m = true →
        e.status ≠ some 404 → Journal.includesSubstr e.message "not found" = false →
        Journal.getJournalEntries a m (.error e) = .error e)
    ∧ (∀ (a : Journal.JournalObjectAddressResult) (m : Option String) (resource : JsValue),
        Journal.optStrTruthy a.address = true → Journal.optStrTruthy m = true →
        truthy ((resource.get "daily_entries").get "root") = false →
        Journal.getJournalEntries a m (.ok resource) = .ok [])
    ∧ (∀ (a : Journal.JournalObjectAddressResult) (m : Option String)
        (resource : JsValue) (e : JsError),
        Journal.optStrTruthy a.address = true → Journal.optStrTruthy m = true →
        truthy ((resource.get "daily_entries").get "root") = true →
        Journal.extractEntriesFromNode ((resource.get "daily_entries").get "root") 0 20
          = .error e →
        e.status ≠ some 404 → Journal.includesSubstr e.message "not found" = false →
        Journal.getJournalEntries a m (.ok resource) = .error e) := by
  refine ⟨?_, ?_, ?_, ?_, ?_, ?_⟩
  · intro a m r ha
    simp [Journal.getJournalEntries, Journal.getJournalEntriesBody, Journal.journalCatch, ha]
  · intro a m r ha hm
    simp [Journal.getJournalEntries, Journal.getJournalEntriesBody, Journal.journalCatch,
      Journal.includesSubstr, ha, hm]
    decide
  · intro a m e ha hm h404
    rcases h404 with h | h <;>
      simp [Journal.getJournalEntries, Journal.getJournalEntriesBody, Journal.journalCatch,
        ha, hm, h]
  · intro a m e ha hm hs hmsg
    simp [Journal.getJournalEntries, Journal.getJournalEntriesBody, Journal.journalCatch,
      ha, hm, hs, hmsg]
  · intro a m resource ha hm hroot
    simp [Journal.getJournalEntries, Journal.getJournalEntriesBody, Journal.journalCatch,
      ha, hm, hroot]
  · intro a m resource e ha hm hroot hex hs hmsg
    simp [Journal.getJournalEntries, Journal.getJournalEntriesBody, Journal.journalCatch,
      ha, hm, hroot, hex, hs, hmsg]

/-- Witness for C8 at the 404-class error ⟨404, "resource not found"⟩: the
absence outcome yields the empty list. -/
theorem c8_witness :
    Journal.optStrTruthy (some "0xabc") = true
    ∧ (JsError.mk (some 404) "resource does not exist").status = some 404
    ∧ Journal.getJournalEntries ⟨some "0xabc", "graphql"⟩ (some "0xmod")
        (.error ⟨some 404, "resource does not exist"⟩) = .ok [] :=
  ⟨rfl, rfl, c8_error_surface.2.2.1 ⟨some "0xabc", "graphql"⟩ (some "0xmod")
    ⟨some 404, "resource does not exist"⟩ rfl rfl (Or.inl rfl)⟩

/-- A resource whose single entry unwraps to the empty string. -/
def journalEmptyMessageResource : JsValue :=
  .obj [("daily_entries", .obj [("root",
    .obj [("is_leaf", .bool true),
          ("children", .obj [("entries", .arr
            [.obj [("key", .str "7"),
                   ("value", .obj [("__variant__", .str "Leaf"),
                                   ("value", .obj [("message", .str "")])])]])])])])]

/-- C10 (confirmed): emission is truthiness-gated, not presence-gated.  A
leaf pair whose key is the number `0`, or whose raw value is falsy (the
empty string), is dropped even though both fields are present; and an entry
whose unwrapped message is the empty string is rejected by
`extractMessageFromEntry` (the `entry?.value?.message` truthiness test) and
therefore omitted from the final `getJournalEntries` output. -/
theorem c10_truthiness_gating :
    (∀ e : JsValue, truthy (e.get "key") = false ∨ truthy (e.get "value") = false →
        Journal.leafEntryItem e = none)
    ∧ Journal.extractEntriesFromNode
        (.obj [("is_leaf", .bool true), ("children", .obj [("entries",
          .arr [.obj [("key", .num 0), ("value", .str "y")]])])]) 0 20 = .ok []
    ∧ Journal.extractEntriesFromNode
        (.obj [("is_leaf", .bool true), ("children", .obj [("entries",
          .arr [.obj [("key", .num 5), ("value", .str "")]])])]) 0 20 = .ok []
    ∧ Journal.extractMessageFromEntry
        (.obj [("__variant__", .str "Leaf"), ("value", .obj [("message", .str "")])]) = none
    ∧ Journal.getJournalEntries ⟨some "0xabc", "graphql"⟩ (some "0xmod")
        (.ok journalEmptyMessageResource) = .ok [] := by
  refine ⟨?_, rfl, rfl, rfl, rfl⟩
  intro e h
  rcases h with h | h <;> simp [Journal.leafEntryItem, h]

/-- Witness for C10's universal conjunct at the present-but-falsy key `0`. -/
theorem c10_witness :
    truthy ((JsValue.obj [("key", .num 0), ("value", .str "y")]).get "key") = false
    ∧ Journal.leafEntryItem (.obj [("key", .num 0), ("value", .str "y")]) = none :=
  ⟨rfl, c10_truthiness_gating.1 (.obj [("key", .num 0), ("value", .str "y")]) (Or.inl rfl)⟩
